import Mathlib

/-!
Verification of the feature-tracker report core (src/featureTracker.py):
calendar arithmetic, interval partitioning, alignment validation, and
visitor-count reconciliation.  Dates are modelled as validated
year/month/day triples over the proleptic Gregorian calendar, matching
Python's `datetime.date`; a failing `date(...)` construction
(`ValueError`) is modelled by `Option`.
-/

/-- Gregorian leap-year test, as Python's `calendar.isleap`. -/
def isLeap (y : Nat) : Bool := y % 4 == 0 && (y % 100 != 0 || y % 400 == 0)

/-- Number of days in month `m` of year `y` (0 for months outside 1..12). -/
def daysInMonth (y m : Nat) : Nat :=
  match m with
  | 1 => 31
  | 2 => if isLeap y then 29 else 28
  | 3 => 31
  | 4 => 30
  | 5 => 31
  | 6 => 30
  | 7 => 31
  | 8 => 31
  | 9 => 30
  | 10 => 31
  | 11 => 30
  | 12 => 31
  | _ => 0

structure Ymd where
  year : Nat
  month : Nat
  day : Nat
  deriving DecidableEq, Repr

/-- The triples that Python's `date` constructor accepts. -/
def Ymd.IsValid (d : Ymd) : Prop :=
  1 ≤ d.month ∧ d.month ≤ 12 ∧ 1 ≤ d.day ∧ d.day ≤ daysInMonth d.year d.month

instance (d : Ymd) : Decidable d.IsValid := by
  unfold Ymd.IsValid; infer_instance

/-- A calendar date, as Python's `datetime.date`: a valid year/month/day triple. -/
def Date : Type := {d : Ymd // d.IsValid}

instance : DecidableEq Date := inferInstanceAs (DecidableEq {d : Ymd // d.IsValid})

theorem daysInMonth_pos (y m : Nat) (h1 : 1 ≤ m) (h2 : m ≤ 12) :
    1 ≤ daysInMonth y m := by
  interval_cases m <;> simp only [daysInMonth] <;> (try split) <;> omega

theorem daysInMonth_bounds (y m : Nat) (h1 : 1 ≤ m) (h2 : m ≤ 12) :
    28 ≤ daysInMonth y m ∧ daysInMonth y m ≤ 31 := by
  interval_cases m <;> simp only [daysInMonth] <;> (try split) <;> omega

/-- Python's `date(y, m, d)` constructor; `none` models `ValueError`. -/
def mkDate (y m d : Nat) : Option Date :=
  if h : Ymd.IsValid ⟨y, m, d⟩ then some ⟨⟨y, m, d⟩, h⟩ else none

/-- Successor on raw triples. -/
def Ymd.next (x : Ymd) : Ymd :=
  if x.day < daysInMonth x.year x.month then ⟨x.year, x.month, x.day + 1⟩
  else if x.month < 12 then ⟨x.year, x.month + 1, 1⟩
  else ⟨x.year + 1, 1, 1⟩

theorem Ymd.next_valid (x : Ymd) (h : x.IsValid) : x.next.IsValid := by
  obtain ⟨y, m, dd⟩ := x
  obtain ⟨hm1, hm2, hd1, hd2⟩ := h
  simp only [Ymd.next]
  split_ifs with h1 h2
  · exact ⟨hm1, hm2, by show 1 ≤ dd + 1; omega, h1⟩
  · exact ⟨by show 1 ≤ m + 1; omega, by show m + 1 ≤ 12; omega, le_refl 1,
      daysInMonth_pos y (m + 1) (by omega) (by omega)⟩
  · exact ⟨by show 1 ≤ 1; omega, by show 1 ≤ 12; omega, le_refl 1,
      by show 1 ≤ daysInMonth (y + 1) 1; norm_num [daysInMonth]⟩

/-- Python `d + timedelta(days=1)`: the calendar successor. -/
def nextDay (d : Date) : Date := ⟨d.val.next, Ymd.next_valid _ d.property⟩

/-- Predecessor on raw triples. -/
def Ymd.prev (x : Ymd) : Ymd :=
  if 1 < x.day then ⟨x.year, x.month, x.day - 1⟩
  else if 1 < x.month then ⟨x.year, x.month - 1, daysInMonth x.year (x.month - 1)⟩
  else ⟨x.year - 1, 12, 31⟩

theorem Ymd.prev_valid (x : Ymd) (h : x.IsValid) : x.prev.IsValid := by
  obtain ⟨y, m, dd⟩ := x
  obtain ⟨hm1, hm2, hd1, hd2⟩ := h
  dsimp only at hm1 hm2 hd1 hd2
  show Ymd.IsValid
    (if 1 < dd then ⟨y, m, dd - 1⟩
     else if 1 < m then ⟨y, m - 1, daysInMonth y (m - 1)⟩
     else ⟨y - 1, 12, 31⟩)
  split_ifs with h1 h2
  · exact ⟨hm1, hm2, by show 1 ≤ dd - 1; omega, by show dd - 1 ≤ daysInMonth y m; omega⟩
  · exact ⟨by show 1 ≤ m - 1; omega, by show m - 1 ≤ 12; omega,
      daysInMonth_pos y (m - 1) (by omega) (by omega), le_refl _⟩
  · exact ⟨by show 1 ≤ 12; omega, le_refl 12, by show 1 ≤ 31; omega,
      by show 31 ≤ daysInMonth (y - 1) 12; norm_num [daysInMonth]⟩

/-- Python `d - timedelta(days=1)`: the calendar predecessor
(at year 0, month 1, day 1 the year component truncates, a point no
source computation reaches). -/
def prevDay (d : Date) : Date := ⟨d.val.prev, Ymd.prev_valid _ d.property⟩

/-- Days in years `[0, y)` that are leap years (proleptic, year 0 leap). -/
def leapsBefore (y : Nat) : Nat := (y + 3) / 4 - (y + 99) / 100 + (y + 399) / 400

/-- Days in months `[1, m)` of year `y`. -/
def daysBeforeMonth (y : Nat) : Nat → Nat
  | 0 => 0
  | m + 1 => daysBeforeMonth y m + daysInMonth y m

/-- Linear day index of a raw triple. -/
def Ymd.ordRaw (x : Ymd) : Nat :=
  365 * x.year + leapsBefore x.year + daysBeforeMonth x.year x.month + x.day - 1

/-- Linear day index of a date: the number of days since 0000-01-01.
Strictly monotone along the calendar; `ord` minus 365 is Python's
`date.toordinal` for years ≥ 1. -/
def ord (d : Date) : Nat := d.val.ordRaw

/-- Python's `date.weekday()`: Monday = 0, ..., Sunday = 6. -/
def weekday (d : Date) : Nat := (ord d + 5) % 7

theorem isLeap_eq_true_iff (y : Nat) :
    isLeap y = true ↔ (y % 4 = 0 ∧ (y % 100 ≠ 0 ∨ y % 400 = 0)) := by
  simp [isLeap]

set_option maxHeartbeats 1000000 in
theorem leapsBefore_succ (y : Nat) :
    leapsBefore (y + 1) = leapsBefore y + (if isLeap y then 1 else 0) := by
  by_cases h : isLeap y = true
  · rw [if_pos h]
    have h' := (isLeap_eq_true_iff y).mp h
    unfold leapsBefore
    omega
  · rw [if_neg h]
    have h' : ¬(y % 4 = 0 ∧ (y % 100 ≠ 0 ∨ y % 400 = 0)) :=
      fun hc => h ((isLeap_eq_true_iff y).mpr hc)
    unfold leapsBefore
    omega

theorem daysBeforeMonth_12 (y : Nat) :
    daysBeforeMonth y 12 = 334 + (if isLeap y then 1 else 0) := by
  cases hL : isLeap y <;> norm_num [daysBeforeMonth, daysInMonth, hL]

theorem ord_nextDay (d : Date) : ord (nextDay d) = ord d + 1 := by
  obtain ⟨⟨y, m, dd⟩, hv⟩ := d
  obtain ⟨hm1, hm2, hd1, hd2⟩ := hv
  dsimp only at hm1 hm2 hd1 hd2
  show Ymd.ordRaw (Ymd.next ⟨y, m, dd⟩) = Ymd.ordRaw ⟨y, m, dd⟩ + 1
  unfold Ymd.next
  dsimp only
  split_ifs with h h2
  · show 365 * y + leapsBefore y + daysBeforeMonth y m + (dd + 1) - 1
        = 365 * y + leapsBefore y + daysBeforeMonth y m + dd - 1 + 1
    omega
  · show 365 * y + leapsBefore y + daysBeforeMonth y (m + 1) + 1 - 1
        = 365 * y + leapsBefore y + daysBeforeMonth y m + dd - 1 + 1
    have hstep : daysBeforeMonth y (m + 1) = daysBeforeMonth y m + daysInMonth y m := rfl
    omega
  · show 365 * (y + 1) + leapsBefore (y + 1) + daysBeforeMonth (y + 1) 1 + 1 - 1
        = 365 * y + leapsBefore y + daysBeforeMonth y m + dd - 1 + 1
    have hm : m = 12 := by omega
    subst hm
    have hd : dd = 31 := by simp only [daysInMonth] at hd2 h; omega
    subst hd
    have h1 : daysBeforeMonth (y + 1) 1 = 0 := by norm_num [daysBeforeMonth, daysInMonth]
    have h12 := daysBeforeMonth_12 y
    have hls := leapsBefore_succ y
    cases hL : isLeap y <;> simp [hL] at h12 hls <;> omega

theorem daysBeforeMonth_mono (y m m' : Nat) (h : m ≤ m') :
    daysBeforeMonth y m ≤ daysBeforeMonth y m' := by
  induction m' with
  | zero =>
    have hm : m = 0 := by omega
    subst hm; exact le_refl _
  | succ k ih =>
    rcases Nat.lt_or_ge m (k + 1) with hlt | hge
    · have h1 := ih (by omega)
      have h2 : daysBeforeMonth y (k + 1) = daysBeforeMonth y k + daysInMonth y k := rfl
      omega
    · have hm : m = k + 1 := by omega
      subst hm; exact le_refl _

theorem daysBeforeMonth_13 (y : Nat) :
    daysBeforeMonth y 13 = 365 + (if isLeap y then 1 else 0) := by
  by_cases h : isLeap y = true <;> norm_num [daysBeforeMonth, daysInMonth, h]

theorem gy_mono (y y' : Nat) (h : y ≤ y') :
    365 * y + leapsBefore y ≤ 365 * y' + leapsBefore y' := by
  induction y' with
  | zero =>
    have hy : y = 0 := by omega
    subst hy; exact le_refl _
  | succ k ih =>
    rcases Nat.lt_or_ge y (k + 1) with hlt | hge
    · have h1 := ih (by omega)
      have h2 := leapsBefore_succ k
      by_cases hL : isLeap k = true
      · rw [if_pos hL] at h2; omega
      · rw [if_neg hL] at h2; omega
    · have hy : y = k + 1 := by omega
      subst hy; exact le_refl _

theorem ordRaw_lt_of_lex (x x' : Ymd) (hx : x.IsValid) (hx' : x'.IsValid)
    (h : x.year < x'.year ∨
      (x.year = x'.year ∧ (x.month < x'.month ∨ (x.month = x'.month ∧ x.day < x'.day)))) :
    x.ordRaw < x'.ordRaw := by
  obtain ⟨y, m, dd⟩ := x
  obtain ⟨y', m', dd'⟩ := x'
  obtain ⟨hm1, hm2, hd1, hd2⟩ := hx
  obtain ⟨hm1', hm2', hd1', hd2'⟩ := hx'
  dsimp only at hm1 hm2 hd1 hd2 hm1' hm2' hd1' hd2' h
  show 365 * y + leapsBefore y + daysBeforeMonth y m + dd - 1
      < 365 * y' + leapsBefore y' + daysBeforeMonth y' m' + dd' - 1
  rcases h with hy | ⟨hy, hm | ⟨hm, hd⟩⟩
  · have hstep : daysBeforeMonth y m + daysInMonth y m = daysBeforeMonth y (m + 1) := rfl
    have h3 : daysBeforeMonth y (m + 1) ≤ daysBeforeMonth y 13 :=
      daysBeforeMonth_mono y _ _ (by omega)
    have h4 := daysBeforeMonth_13 y
    have hg : 365 * (y + 1) + leapsBefore (y + 1) ≤ 365 * y' + leapsBefore y' :=
      gy_mono _ _ (by omega)
    have hls := leapsBefore_succ y
    by_cases hL : isLeap y = true
    · rw [if_pos hL] at h4 hls; omega
    · rw [if_neg hL] at h4 hls; omega
  · subst hy
    have hstep : daysBeforeMonth y m + daysInMonth y m = daysBeforeMonth y (m + 1) := rfl
    have hmono : daysBeforeMonth y (m + 1) ≤ daysBeforeMonth y m' :=
      daysBeforeMonth_mono y _ _ (by omega)
    omega
  · subst hy; subst hm
    omega

theorem ord_inj : ∀ (d1 d2 : Date), ord d1 = ord d2 → d1 = d2 := by
  intro ⟨⟨y1, m1, dd1⟩, hv1⟩ ⟨⟨y2, m2, dd2⟩, hv2⟩ h
  apply Subtype.ext
  show (⟨y1, m1, dd1⟩ : Ymd) = ⟨y2, m2, dd2⟩
  have hord : Ymd.ordRaw ⟨y1, m1, dd1⟩ = Ymd.ordRaw ⟨y2, m2, dd2⟩ := h
  by_contra hne
  rcases Nat.lt_trichotomy y1 y2 with hy | hy | hy
  · exact absurd hord (Nat.ne_of_lt (ordRaw_lt_of_lex _ _ hv1 hv2 (Or.inl hy)))
  · rcases Nat.lt_trichotomy m1 m2 with hm | hm | hm
    · exact absurd hord (Nat.ne_of_lt (ordRaw_lt_of_lex _ _ hv1 hv2 (Or.inr ⟨hy, Or.inl hm⟩)))
    · rcases Nat.lt_trichotomy dd1 dd2 with hd | hd | hd
      · exact absurd hord
          (Nat.ne_of_lt (ordRaw_lt_of_lex _ _ hv1 hv2 (Or.inr ⟨hy, Or.inr ⟨hm, hd⟩⟩)))
      · exact hne (by rw [hy, hm, hd])
      · exact absurd hord.symm
          (Nat.ne_of_lt (ordRaw_lt_of_lex _ _ hv2 hv1 (Or.inr ⟨hy.symm, Or.inr ⟨hm.symm, hd⟩⟩)))
    · exact absurd hord.symm
        (Nat.ne_of_lt (ordRaw_lt_of_lex _ _ hv2 hv1 (Or.inr ⟨hy.symm, Or.inl hm⟩)))
  · exact absurd hord.symm (Nat.ne_of_lt (ordRaw_lt_of_lex _ _ hv2 hv1 (Or.inl hy)))

theorem prevDay_nextDay (d : Date) : prevDay (nextDay d) = d := by
  obtain ⟨⟨y, m, dd⟩, hv⟩ := d
  obtain ⟨hm1, hm2, hd1, hd2⟩ := hv
  dsimp only at hm1 hm2 hd1 hd2
  apply Subtype.ext
  show Ymd.prev (Ymd.next ⟨y, m, dd⟩) = ⟨y, m, dd⟩
  unfold Ymd.next
  dsimp only
  split_ifs with h h2
  · unfold Ymd.prev
    dsimp only
    rw [if_pos (by omega)]
    simp only [Ymd.mk.injEq]
    exact ⟨trivial, trivial, by omega⟩
  · unfold Ymd.prev
    dsimp only
    rw [if_neg (by omega), if_pos (by omega)]
    simp only [Ymd.mk.injEq]
    have hdm : dd = daysInMonth y m := by omega
    refine ⟨trivial, by omega, ?_⟩
    have hmm : m + 1 - 1 = m := by omega
    rw [hmm]
    omega
  · unfold Ymd.prev
    dsimp only
    rw [if_neg (by omega), if_neg (by omega)]
    have hm12 : m = 12 := by omega
    have hdd : dd = 31 := by
      subst hm12; simp only [daysInMonth] at hd2 h; omega
    simp only [Ymd.mk.injEq]
    exact ⟨by omega, by omega, by omega⟩

theorem nextDay_prevDay (d : Date)
    (hcond : d.val.month = 1 → d.val.day = 1 → 1 ≤ d.val.year) :
    nextDay (prevDay d) = d := by
  obtain ⟨⟨y, m, dd⟩, hv⟩ := d
  obtain ⟨hm1, hm2, hd1, hd2⟩ := hv
  dsimp only at hm1 hm2 hd1 hd2 hcond
  apply Subtype.ext
  show Ymd.next (Ymd.prev ⟨y, m, dd⟩) = ⟨y, m, dd⟩
  unfold Ymd.prev
  dsimp only
  split_ifs with h h2
  · unfold Ymd.next
    dsimp only
    rw [if_pos (by omega)]
    simp only [Ymd.mk.injEq]
    exact ⟨trivial, trivial, by omega⟩
  · unfold Ymd.next
    dsimp only
    rw [if_neg (by omega), if_pos (by omega)]
    simp only [Ymd.mk.injEq]
    exact ⟨trivial, by omega, by omega⟩
  · have hdd : dd = 1 := by omega
    have hm' : m = 1 := by omega
    have hy : 1 ≤ y := hcond hm' hdd
    unfold Ymd.next
    dsimp only
    rw [if_neg (by norm_num [daysInMonth]), if_neg (by omega)]
    simp only [Ymd.mk.injEq]
    exact ⟨by omega, by omega, by omega⟩

theorem ord_prevDay (d : Date)
    (hcond : d.val.month = 1 → d.val.day = 1 → 1 ≤ d.val.year) :
    ord (prevDay d) + 1 = ord d := by
  have h := ord_nextDay (prevDay d)
  rw [nextDay_prevDay d hcond] at h
  omega

theorem Ymd.isValid_mk (y m d : Nat) (h1 : 1 ≤ m) (h2 : m ≤ 12) (h3 : 1 ≤ d)
    (h4 : d ≤ daysInMonth y m) : Ymd.IsValid ⟨y, m, d⟩ := ⟨h1, h2, h3, h4⟩

theorem mkDate_some (y m d : Nat) (h : Ymd.IsValid ⟨y, m, d⟩) :
    mkDate y m d = some ⟨⟨y, m, d⟩, h⟩ := dif_pos h

theorem mkDate_none (y m d : Nat) (h : ¬ Ymd.IsValid ⟨y, m, d⟩) :
    mkDate y m d = none := dif_neg h

/-- `add_one_month` from src/featureTracker.py: move to the next calendar
month, clamping the day to the target month's length, where the length of
the target month is computed as `(date(year, month+1, 1) - 1 day).day`.
`none` models the uncaught `ValueError` raised by `date(year, month+1, 1)`
when `month + 1` is 13. -/
def add_one_month (d : Date) : Option Date :=
  let year := if d.val.month = 12 then d.val.year + 1 else d.val.year
  let month := if d.val.month = 12 then 1 else d.val.month + 1
  match mkDate year (month + 1) 1 with
  | none => none
  | some firstOfNext => mkDate year month (min d.val.day (prevDay firstOfNext).val.day)

theorem add_one_month_spec (y m dd : Nat) (hv : Ymd.IsValid ⟨y, m, dd⟩) (c' : Date)
    (h : add_one_month ⟨⟨y, m, dd⟩, hv⟩ = some c') :
    (m = 12 ∧ c'.val = ⟨y + 1, 1, min dd 31⟩) ∨
    (m ≤ 10 ∧ c'.val = ⟨y, m + 1, min dd (daysInMonth y (m + 1))⟩) := by
  have hm1 := hv.1
  have hm2 := hv.2.1
  have hd1 := hv.2.2.1
  have hd2 := hv.2.2.2
  dsimp only at hm1 hm2 hd1 hd2
  by_cases h12 : m = 12
  · subst h12
    left
    refine ⟨rfl, ?_⟩
    unfold add_one_month at h
    dsimp only at h
    rw [if_pos rfl, if_pos rfl] at h
    rw [mkDate_some (y + 1) (1 + 1) 1
      (Ymd.isValid_mk _ _ _ (by omega) (by omega) (by omega)
        (daysInMonth_pos _ _ (by omega) (by omega)))] at h
    dsimp only [prevDay] at h
    have hp : Ymd.prev ⟨y + 1, 1 + 1, 1⟩ = ⟨y + 1, 1, 31⟩ := by
      unfold Ymd.prev
      dsimp only
      rw [if_neg (by omega), if_pos (by omega)]
      norm_num [daysInMonth]
    rw [hp] at h
    dsimp only at h
    rw [mkDate_some (y + 1) 1 (min dd 31)
      (Ymd.isValid_mk _ _ _ (by omega) (by omega) (by omega)
        (by show min dd 31 ≤ daysInMonth (y + 1) 1; norm_num [daysInMonth]))] at h
    have hc := Option.some.inj h
    rw [← hc]
  · by_cases h11 : m = 11
    · subst h11
      exfalso
      unfold add_one_month at h
      dsimp only at h
      rw [if_neg (by omega), if_neg (by omega)] at h
      rw [mkDate_none y (11 + 1 + 1) 1 (by
        intro hc
        have := hc.2.1
        dsimp only at this
        omega)] at h
      exact Option.noConfusion h
    · right
      refine ⟨by omega, ?_⟩
      unfold add_one_month at h
      dsimp only at h
      rw [if_neg (by omega), if_neg (by omega)] at h
      rw [mkDate_some y (m + 1 + 1) 1
        (Ymd.isValid_mk _ _ _ (by omega) (by omega) (by omega)
          (daysInMonth_pos _ _ (by omega) (by omega)))] at h
      dsimp only [prevDay] at h
      have hp : Ymd.prev ⟨y, m + 1 + 1, 1⟩ = ⟨y, m + 1, daysInMonth y (m + 1)⟩ := by
        unfold Ymd.prev
        dsimp only
        rw [if_neg (by omega), if_pos (by omega)]
        simp only [Ymd.mk.injEq]
        refine ⟨trivial, by omega, ?_⟩
        rw [Nat.add_sub_cancel]
      rw [hp] at h
      dsimp only at h
      rw [mkDate_some y (m + 1) (min dd (daysInMonth y (m + 1)))
        (Ymd.isValid_mk _ _ _ (by omega) (by omega)
          (by have := daysInMonth_pos y (m + 1) (by omega) (by omega); omega)
          (by omega))] at h
      have hc := Option.some.inj h
      rw [← hc]

theorem ord_add_one_month (c c' : Date) (h : add_one_month c = some c') :
    ord c < ord c' := by
  obtain ⟨⟨y, m, dd⟩, hv⟩ := c
  have hm1 := hv.1
  have hm2 := hv.2.1
  have hd1 := hv.2.2.1
  have hd2 := hv.2.2.2
  dsimp only at hm1 hm2 hd1 hd2
  rcases add_one_month_spec y m dd hv c' h with ⟨h12, hval⟩ | ⟨h10, hval⟩
  · subst h12
    show Ymd.ordRaw ⟨y, 12, dd⟩ < Ymd.ordRaw c'.val
    rw [hval]
    show 365 * y + leapsBefore y + daysBeforeMonth y 12 + dd - 1
        < 365 * (y + 1) + leapsBefore (y + 1) + daysBeforeMonth (y + 1) 1 + min dd 31 - 1
    have hdim : daysInMonth y 12 = 31 := rfl
    have hmin : min dd 31 = dd := Nat.min_eq_left (by omega)
    have h12' := daysBeforeMonth_12 y
    have h1 : daysBeforeMonth (y + 1) 1 = 0 := by norm_num [daysBeforeMonth, daysInMonth]
    have hls := leapsBefore_succ y
    by_cases hL : isLeap y = true
    · rw [if_pos hL] at h12' hls; omega
    · rw [if_neg hL] at h12' hls; omega
  · show Ymd.ordRaw ⟨y, m, dd⟩ < Ymd.ordRaw c'.val
    rw [hval]
    show 365 * y + leapsBefore y + daysBeforeMonth y m + dd - 1
        < 365 * y + leapsBefore y + daysBeforeMonth y (m + 1) + min dd (daysInMonth y (m + 1)) - 1
    have hstep : daysBeforeMonth y (m + 1) = daysBeforeMonth y m + daysInMonth y m := rfl
    have hb1 := daysInMonth_bounds y m (by omega) (by omega)
    have hb2 := daysInMonth_bounds y (m + 1) (by omega) (by omega)
    rcases Nat.le_total dd (daysInMonth y (m + 1)) with hle | hle
    · rw [Nat.min_eq_left hle]; omega
    · rw [Nat.min_eq_right hle]; omega

theorem add_one_month_chain (c c' : Date) (h : add_one_month c = some c') :
    nextDay (prevDay c') = c' := by
  obtain ⟨⟨y, m, dd⟩, hv⟩ := c
  have hm1 := hv.1
  dsimp only at hm1
  apply nextDay_prevDay
  intro hmon _hday
  rcases add_one_month_spec y m dd hv c' h with ⟨h12, hval⟩ | ⟨h10, hval⟩
  · rw [hval]; dsimp only; omega
  · rw [hval] at hmon
    dsimp only at hmon
    omega

theorem ord_prevDay_add_one_month (c c' : Date) (h : add_one_month c = some c') :
    ord (prevDay c') + 1 = ord c' := by
  obtain ⟨⟨y, m, dd⟩, hv⟩ := c
  have hm1 := hv.1
  dsimp only at hm1
  apply ord_prevDay
  intro hmon _hday
  rcases add_one_month_spec y m dd hv c' h with ⟨h12, hval⟩ | ⟨h10, hval⟩
  · rw [hval]; dsimp only; omega
  · rw [hval] at hmon
    dsimp only at hmon
    omega

/-- The report's three granularities (CLI `interval` argument). -/
inductive Granularity where
  | day
  | week
  | month
  deriving DecidableEq, Repr

/-- Result of `validate_interval_alignment`: `ok` (function returns),
`alignmentError` (prints the alignment message and exits), or
`valueError` (uncaught `ValueError` from `add_one_month`). -/
inductive ValidateOutcome where
  | ok
  | alignmentError
  | valueError
  deriving DecidableEq, Repr

/-- The `while current < end_date: current = add_one_month(current)` loop of
`validate_interval_alignment`, followed by the final
`current != end_date + timedelta(days=1)` check. -/
def monthValidateLoop (e : Date) (c : Date) : ValidateOutcome :=
  if _h : ord c < ord e then
    match _ha : add_one_month c with
    | none => .valueError
    | some c2 => monthValidateLoop e c2
  else if c = nextDay e then .ok else .alignmentError
  termination_by ord e - ord c
  decreasing_by
    have := ord_add_one_month c c2 _ha
    omega

/-- `validate_interval_alignment` from src/featureTracker.py. -/
def validate_interval_alignment (g : Granularity) (s e : Date) : ValidateOutcome :=
  match g with
  | .week => if weekday s ≠ 6 ∨ weekday e ≠ 5 then .alignmentError else .ok
  | .month => monthValidateLoop e s
  | .day => .ok

/-- Python `d + timedelta(days=n)` for `n ≥ 0`. -/
def addDays (n : Nat) (d : Date) : Date := nextDay^[n] d

theorem ord_addDays (n : Nat) (d : Date) : ord (addDays n d) = ord d + n := by
  induction n with
  | zero => rfl
  | succ k ih =>
    show ord (nextDay^[k + 1] d) = ord d + (k + 1)
    rw [Function.iterate_succ_apply']
    rw [ord_nextDay]
    have hk : ord (nextDay^[k] d) = ord d + k := ih
    omega

/-- Section 3's interval loop for `day` granularity (lines 157-160). -/
def dayIntervalsLoop (e c : Date) : List (Date × Date) :=
  if _h : ord c ≤ ord e then (c, c) :: dayIntervalsLoop e (nextDay c) else []
  termination_by ord e + 1 - ord c
  decreasing_by
    have := ord_nextDay c
    omega

/-- Section 3's interval loop for `week` granularity (lines 161-165). -/
def weekIntervalsLoop (e c : Date) : List (Date × Date) :=
  if _h : ord c ≤ ord e then (c, addDays 6 c) :: weekIntervalsLoop e (addDays 7 c) else []
  termination_by ord e + 1 - ord c
  decreasing_by
    have := ord_addDays 7 c
    omega

/-- Section 3's interval loop for `month` granularity (lines 166-171);
`none` models the `ValueError` crash of `add_one_month`. -/
def monthIntervalsLoop (e c : Date) : Option (List (Date × Date)) :=
  if _h : ord c ≤ ord e then
    match _ha : add_one_month c with
    | none => none
    | some nm => (monthIntervalsLoop e nm).map (fun l => (c, prevDay nm) :: l)
  else some []
  termination_by ord e + 1 - ord c
  decreasing_by
    have := ord_add_one_month c nm _ha
    omega

/-- The interval list as built in Section 3 (lines 155-171). -/
def intervalsSection3 (g : Granularity) (s e : Date) : Option (List (Date × Date)) :=
  match g with
  | .day => some (dayIntervalsLoop e s)
  | .week => some (weekIntervalsLoop e s)
  | .month => monthIntervalsLoop e s

/-- Section 6's duplicated interval loop for `day` granularity (lines 249-252). -/
def dayIntervalsLoop6 (e c : Date) : List (Date × Date) :=
  if _h : ord c ≤ ord e then (c, c) :: dayIntervalsLoop6 e (nextDay c) else []
  termination_by ord e + 1 - ord c
  decreasing_by
    have := ord_nextDay c
    omega

/-- Section 6's duplicated interval loop for `week` granularity (lines 253-257). -/
def weekIntervalsLoop6 (e c : Date) : List (Date × Date) :=
  if _h : ord c ≤ ord e then (c, addDays 6 c) :: weekIntervalsLoop6 e (addDays 7 c) else []
  termination_by ord e + 1 - ord c
  decreasing_by
    have := ord_addDays 7 c
    omega

/-- Section 6's duplicated interval loop for `month` granularity (lines 258-263). -/
def monthIntervalsLoop6 (e c : Date) : Option (List (Date × Date)) :=
  if _h : ord c ≤ ord e then
    match _ha : add_one_month c with
    | none => none
    | some nm => (monthIntervalsLoop6 e nm).map (fun l => (c, prevDay nm) :: l)
  else some []
  termination_by ord e + 1 - ord c
  decreasing_by
    have := ord_add_one_month c nm _ha
    omega

/-- The interval list as rebuilt in Section 6 (lines 247-263). -/
def intervalsSection6 (g : Granularity) (s e : Date) : Option (List (Date × Date)) :=
  match g with
  | .day => some (dayIntervalsLoop6 e s)
  | .week => some (weekIntervalsLoop6 e s)
  | .month => monthIntervalsLoop6 e s

theorem monthValidateLoop_step_lt_none (e c : Date) (h : ord c < ord e)
    (ha : add_one_month c = none) : monthValidateLoop e c = .valueError := by
  rw [monthValidateLoop, dif_pos h]
  split
  · rfl
  · next c2 heq =>
    rw [ha] at heq
    exact Option.noConfusion heq

theorem monthValidateLoop_step_lt_some (e c c2 : Date) (h : ord c < ord e)
    (ha : add_one_month c = some c2) : monthValidateLoop e c = monthValidateLoop e c2 := by
  rw [monthValidateLoop, dif_pos h]
  split
  · next heq =>
    rw [ha] at heq
    exact Option.noConfusion heq
  · next c2' heq =>
    rw [ha] at heq
    rw [Option.some.inj heq]

theorem monthValidateLoop_step_ge (e c : Date) (h : ¬ ord c < ord e) :
    monthValidateLoop e c = if c = nextDay e then .ok else .alignmentError := by
  rw [monthValidateLoop, dif_neg h]

theorem dayIntervalsLoop_step_le (e c : Date) (h : ord c ≤ ord e) :
    dayIntervalsLoop e c = (c, c) :: dayIntervalsLoop e (nextDay c) := by
  rw [dayIntervalsLoop, dif_pos h]

theorem dayIntervalsLoop_step_gt (e c : Date) (h : ¬ ord c ≤ ord e) :
    dayIntervalsLoop e c = [] := by
  rw [dayIntervalsLoop, dif_neg h]

theorem weekIntervalsLoop_step_le (e c : Date) (h : ord c ≤ ord e) :
    weekIntervalsLoop e c = (c, addDays 6 c) :: weekIntervalsLoop e (addDays 7 c) := by
  rw [weekIntervalsLoop, dif_pos h]

theorem weekIntervalsLoop_step_gt (e c : Date) (h : ¬ ord c ≤ ord e) :
    weekIntervalsLoop e c = [] := by
  rw [weekIntervalsLoop, dif_neg h]

theorem monthIntervalsLoop_step_le_none (e c : Date) (h : ord c ≤ ord e)
    (ha : add_one_month c = none) : monthIntervalsLoop e c = none := by
  rw [monthIntervalsLoop, dif_pos h]
  split
  · rfl
  · next c2 heq =>
    rw [ha] at heq
    exact Option.noConfusion heq

theorem monthIntervalsLoop_step_le_some (e c c2 : Date) (h : ord c ≤ ord e)
    (ha : add_one_month c = some c2) :
    monthIntervalsLoop e c = (monthIntervalsLoop e c2).map (fun l => (c, prevDay c2) :: l) := by
  rw [monthIntervalsLoop, dif_pos h]
  split
  · next heq =>
    rw [ha] at heq
    exact Option.noConfusion heq
  · next c2' heq =>
    rw [ha] at heq
    rw [Option.some.inj heq]

theorem monthIntervalsLoop_step_gt (e c : Date) (h : ¬ ord c ≤ ord e) :
    monthIntervalsLoop e c = some [] := by
  rw [monthIntervalsLoop, dif_neg h]

/-- `l` is an ordered partition of the day range `[s, e]` into intervals:
nonempty, starts at `s`, ends at `e`, each interval is nonempty, and each
interval starts exactly one day after the previous one ends. -/
def IsPartition (l : List (Date × Date)) (s e : Date) : Prop :=
  l ≠ [] ∧
  (∀ p, l.head? = some p → p.1 = s) ∧
  (∀ p, l.getLast? = some p → p.2 = e) ∧
  List.Chain' (fun p q => q.1 = nextDay p.2) l ∧
  (∀ p ∈ l, ord p.1 ≤ ord p.2)

theorem isPartition_single (a b : Date) (h : ord a ≤ ord b) : IsPartition [(a, b)] a b := by
  refine ⟨by simp, ?_, ?_, ?_, ?_⟩
  · intro p hp
    simp only [List.head?_cons, Option.some.injEq] at hp
    rw [← hp]
  · intro p hp
    simp only [List.getLast?_singleton, Option.some.injEq] at hp
    rw [← hp]
  · exact List.chain'_singleton _
  · intro p hp
    simp only [List.mem_singleton] at hp
    rw [hp]
    exact h

theorem isPartition_cons (p : Date × Date) (l : List (Date × Date)) (e : Date)
    (hl : IsPartition l (nextDay p.2) e) (hb : ord p.1 ≤ ord p.2) :
    IsPartition (p :: l) p.1 e := by
  obtain ⟨hne, hhead, hlast, hchain, hord⟩ := hl
  refine ⟨by simp, ?_, ?_, ?_, ?_⟩
  · intro q hq
    simp only [List.head?_cons, Option.some.injEq] at hq
    rw [← hq]
  · intro q hq
    have hcons : (p :: l).getLast? = l.getLast? := by
      cases l with
      | nil => exact absurd rfl hne
      | cons x xs => exact List.getLast?_cons_cons
    rw [hcons] at hq
    exact hlast q hq
  · rw [List.chain'_cons']
    refine ⟨?_, hchain⟩
    intro q hq
    rw [Option.mem_def] at hq
    exact hhead q hq
  · intro q hq
    rcases List.mem_cons.mp hq with h1 | h2
    · rw [h1]
      exact hb
    · exact hord q h2

theorem dayLoop_partition : ∀ (n : Nat) (e c : Date), ord e + 1 - ord c ≤ n →
    ord c ≤ ord e → IsPartition (dayIntervalsLoop e c) c e := by
  intro n
  induction n with
  | zero =>
    intro e c hn hle
    omega
  | succ k ih =>
    intro e c hn hle
    rw [dayIntervalsLoop_step_le e c hle]
    have hnext := ord_nextDay c
    rcases Nat.lt_or_ge (ord c) (ord e) with hlt | hge
    · have htail := ih e (nextDay c) (by omega) (by omega)
      exact isPartition_cons (c, c) _ e htail (le_refl _)
    · have hce : c = e := ord_inj c e (by omega)
      have htail : dayIntervalsLoop e (nextDay c) = [] :=
        dayIntervalsLoop_step_gt e (nextDay c) (by omega)
      rw [htail]
      rw [← hce]
      exact isPartition_single c c (le_refl _)

theorem weekLoop_partition : ∀ (t : Nat) (e c : Date), ord e = ord c + 7 * t + 6 →
    IsPartition (weekIntervalsLoop e c) c e := by
  intro t
  induction t with
  | zero =>
    intro e c he
    rw [weekIntervalsLoop_step_le e c (by omega)]
    have h7 := ord_addDays 7 c
    have h6 := ord_addDays 6 c
    rw [weekIntervalsLoop_step_gt e (addDays 7 c) (by omega)]
    have hend : addDays 6 c = e := ord_inj _ _ (by omega)
    rw [hend]
    exact isPartition_single c e (by omega)
  | succ k ih =>
    intro e c he
    rw [weekIntervalsLoop_step_le e c (by omega)]
    have h7 := ord_addDays 7 c
    have h6 := ord_addDays 6 c
    have htail := ih e (addDays 7 c) (by omega)
    have hlink : addDays 7 c = nextDay (addDays 6 c) := by
      show nextDay^[7] c = nextDay (nextDay^[6] c)
      rw [Function.iterate_succ_apply']
    refine isPartition_cons (c, addDays 6 c) _ e ?_ (by show ord c ≤ ord (addDays 6 c); omega)
    show IsPartition (weekIntervalsLoop e (addDays 7 c)) (nextDay (addDays 6 c)) e
    rw [← hlink]
    exact htail

theorem monthLoops_partition : ∀ (n : Nat) (e c : Date), ord e + 1 - ord c ≤ n →
    ord c ≤ ord e → monthValidateLoop e c = .ok →
    ∃ l, monthIntervalsLoop e c = some l ∧ IsPartition l c e := by
  intro n
  induction n with
  | zero =>
    intro e c hn hle hok
    omega
  | succ k ih =>
    intro e c hn hle hok
    rcases Nat.lt_or_ge (ord c) (ord e) with hlt | hge
    · rcases hadd : add_one_month c with _ | c2
      · rw [monthValidateLoop_step_lt_none e c hlt hadd] at hok
        exact ValidateOutcome.noConfusion hok
      · rw [monthValidateLoop_step_lt_some e c c2 hlt hadd] at hok
        have hinc := ord_add_one_month c c2 hadd
        have hprev1 := ord_prevDay_add_one_month c c2 hadd
        have hchain := add_one_month_chain c c2 hadd
        have hstep := monthIntervalsLoop_step_le_some e c c2 hle hadd
        rcases Nat.lt_or_ge (ord e) (ord c2) with hgt | hle2
        · have htail : monthIntervalsLoop e c2 = some [] :=
            monthIntervalsLoop_step_gt e c2 (by omega)
          rw [hstep, htail]
          have hv2 := monthValidateLoop_step_ge e c2 (by omega)
          rw [hv2] at hok
          by_cases hc2 : c2 = nextDay e
          · have hend : prevDay c2 = e := by
              rw [hc2]
              exact prevDay_nextDay e
            refine ⟨[(c, prevDay c2)], rfl, ?_⟩
            rw [hend]
            exact isPartition_single c e (by omega)
          · rw [if_neg hc2] at hok
            exact ValidateOutcome.noConfusion hok
        · obtain ⟨l2, hl2, hpart⟩ := ih e c2 (by omega) (by omega) hok
          rw [hstep, hl2]
          refine ⟨(c, prevDay c2) :: l2, rfl, ?_⟩
          refine isPartition_cons (c, prevDay c2) l2 e ?_
            (by show ord c ≤ ord (prevDay c2); omega)
          show IsPartition l2 (nextDay (prevDay c2)) e
          rw [hchain]
          exact hpart
    · have hv := monthValidateLoop_step_ge e c (by omega)
      rw [hv] at hok
      by_cases hc : c = nextDay e
      · exfalso
        have h1 : ord c = ord (nextDay e) := by rw [hc]
        rw [ord_nextDay e] at h1
        omega
      · rw [if_neg hc] at hok
        exact ValidateOutcome.noConfusion hok

theorem validate_week_ok (s e : Date)
    (h : validate_interval_alignment .week s e = .ok) :
    weekday s = 6 ∧ weekday e = 5 := by
  unfold validate_interval_alignment at h
  by_cases hc : weekday s ≠ 6 ∨ weekday e ≠ 5
  · rw [if_pos hc] at h
    exact ValidateOutcome.noConfusion h
  · push_neg at hc
    exact hc

theorem dayIntervalsLoop6_step_le (e c : Date) (h : ord c ≤ ord e) :
    dayIntervalsLoop6 e c = (c, c) :: dayIntervalsLoop6 e (nextDay c) := by
  rw [dayIntervalsLoop6, dif_pos h]

theorem dayIntervalsLoop6_step_gt (e c : Date) (h : ¬ ord c ≤ ord e) :
    dayIntervalsLoop6 e c = [] := by
  rw [dayIntervalsLoop6, dif_neg h]

theorem weekIntervalsLoop6_step_le (e c : Date) (h : ord c ≤ ord e) :
    weekIntervalsLoop6 e c = (c, addDays 6 c) :: weekIntervalsLoop6 e (addDays 7 c) := by
  rw [weekIntervalsLoop6, dif_pos h]

theorem weekIntervalsLoop6_step_gt (e c : Date) (h : ¬ ord c ≤ ord e) :
    weekIntervalsLoop6 e c = [] := by
  rw [weekIntervalsLoop6, dif_neg h]

theorem monthIntervalsLoop6_step_le_none (e c : Date) (h : ord c ≤ ord e)
    (ha : add_one_month c = none) : monthIntervalsLoop6 e c = none := by
  rw [monthIntervalsLoop6, dif_pos h]
  split
  · rfl
  · next c2 heq =>
    rw [ha] at heq
    exact Option.noConfusion heq

theorem monthIntervalsLoop6_step_le_some (e c c2 : Date) (h : ord c ≤ ord e)
    (ha : add_one_month c = some c2) :
    monthIntervalsLoop6 e c
      = (monthIntervalsLoop6 e c2).map (fun l => (c, prevDay c2) :: l) := by
  rw [monthIntervalsLoop6, dif_pos h]
  split
  · next heq =>
    rw [ha] at heq
    exact Option.noConfusion heq
  · next c2' heq =>
    rw [ha] at heq
    rw [Option.some.inj heq]

theorem monthIntervalsLoop6_step_gt (e c : Date) (h : ¬ ord c ≤ ord e) :
    monthIntervalsLoop6 e c = some [] := by
  rw [monthIntervalsLoop6, dif_neg h]

theorem dayLoops_eq : ∀ (n : Nat) (e c : Date), ord e + 1 - ord c ≤ n →
    dayIntervalsLoop6 e c = dayIntervalsLoop e c := by
  intro n
  induction n with
  | zero =>
    intro e c hn
    rw [dayIntervalsLoop6_step_gt e c (by omega), dayIntervalsLoop_step_gt e c (by omega)]
  | succ k ih =>
    intro e c hn
    by_cases h : ord c ≤ ord e
    · rw [dayIntervalsLoop6_step_le e c h, dayIntervalsLoop_step_le e c h]
      have := ord_nextDay c
      rw [ih e (nextDay c) (by omega)]
    · rw [dayIntervalsLoop6_step_gt e c h, dayIntervalsLoop_step_gt e c h]

theorem weekLoops_eq : ∀ (n : Nat) (e c : Date), ord e + 1 - ord c ≤ n →
    weekIntervalsLoop6 e c = weekIntervalsLoop e c := by
  intro n
  induction n with
  | zero =>
    intro e c hn
    rw [weekIntervalsLoop6_step_gt e c (by omega), weekIntervalsLoop_step_gt e c (by omega)]
  | succ k ih =>
    intro e c hn
    by_cases h : ord c ≤ ord e
    · rw [weekIntervalsLoop6_step_le e c h, weekIntervalsLoop_step_le e c h]
      have := ord_addDays 7 c
      rw [ih e (addDays 7 c) (by omega)]
    · rw [weekIntervalsLoop6_step_gt e c h, weekIntervalsLoop_step_gt e c h]

theorem monthLoops_eq : ∀ (n : Nat) (e c : Date), ord e + 1 - ord c ≤ n →
    monthIntervalsLoop6 e c = monthIntervalsLoop e c := by
  intro n
  induction n with
  | zero =>
    intro e c hn
    rw [monthIntervalsLoop6_step_gt e c (by omega), monthIntervalsLoop_step_gt e c (by omega)]
  | succ k ih =>
    intro e c hn
    by_cases h : ord c ≤ ord e
    · rcases hadd : add_one_month c with _ | c2
      · rw [monthIntervalsLoop6_step_le_none e c h hadd,
          monthIntervalsLoop_step_le_none e c h hadd]
      · rw [monthIntervalsLoop6_step_le_some e c c2 h hadd,
          monthIntervalsLoop_step_le_some e c c2 h hadd]
        have := ord_add_one_month c c2 hadd
        rw [ih e c2 (by omega)]
    · rw [monthIntervalsLoop6_step_gt e c h, monthIntervalsLoop_step_gt e c h]

/-- One entry of a breakdown query response: the JSON keys the source
reads (`goal`, `event:goal`, `name`, `visitors`, `events`), each possibly
absent. -/
structure BreakdownItem where
  goal : Option String
  eventGoal : Option String
  name : Option String
  visitors : Option Nat
  events : Option Nat
  deriving DecidableEq, Repr

/-- Python's `a or b` on optional strings: `None` and `""` are falsy. -/
def pyOr (a b : Option String) : Option String :=
  match a with
  | some s => if s = "" then b else some s
  | none => b

/-- `item.get("goal") or item.get("event:goal") or item.get("name")`
(line 104). -/
def itemGoal (it : BreakdownItem) : Option String :=
  pyOr it.goal (pyOr it.eventGoal it.name)

/-- `if goal in goals` (line 105); a `None` key never matches. -/
def itemMatches (goals : List String) (it : BreakdownItem) : Bool :=
  match itemGoal it with
  | some s => goals.contains s
  | none => false

/-- The visitors accumulation of lines 100-108 (`total_goal_visitors += count`,
before the cap). -/
def goalVisitorsSum (resp : List BreakdownItem) (goals : List String) : Nat :=
  resp.foldl (fun acc it => if itemMatches goals it then acc + it.visitors.getD 0 else acc) 0

/-- The events accumulation of Section 3's per-interval loop (lines 180-187). -/
def goalEventsSum (resp : List BreakdownItem) (goals : List String) : Nat :=
  resp.foldl (fun acc it => if itemMatches goals it then acc + it.events.getD 0 else acc) 0

/-- `total_goal_visitors` after line 115:
`min(total_goal_visitors, site_total_visitors)`. -/
def total_goal_visitors (resp : List BreakdownItem) (goals : List String)
    (siteTotal : Nat) : Nat :=
  min (goalVisitorsSum resp goals) siteTotal

/-- `total_events` (lines 134-138): the plain events sum, never capped. -/
def total_events (resp : List BreakdownItem) (goals : List String) : Nat :=
  resp.foldl (fun acc it => if itemMatches goals it then acc + it.events.getD 0 else acc) 0

/-- `.get("results", {}).get("visitors", {}).get("value", 0)`: a missing
value defaults to 0. -/
def aggValue (v : Option Nat) : Nat := v.getD 0

/-- One row of Section 3 (lines 180-189): `(events, visitors)` for one
sub-interval, events plain-summed, visitors capped by `cap`. -/
def section3Row (resp : List BreakdownItem) (goals : List String) (cap : Nat) : Nat × Nat :=
  (goalEventsSum resp goals, min (goalVisitorsSum resp goals) cap)

/-- Section 3's full per-interval figure list: the cap passed to every row
is the whole-range reconciled total of Section 1. -/
def section3Figures (g : Granularity) (s e : Date) (goals : List String)
    (wholeResp : List BreakdownItem) (siteTotal : Nat)
    (respOf : Date → Date → List BreakdownItem) : Option (List (Nat × Nat)) :=
  (intervalsSection3 g s e).map fun ivs =>
    ivs.map fun p =>
      section3Row (respOf p.1 p.2) goals (total_goal_visitors wholeResp goals siteTotal)

/-- Section 4 percentage (line 205):
`count / total * 100 if total > 0 else 0`. -/
def percentage (count total : Nat) : ℚ :=
  if 0 < total then (count : ℚ) / (total : ℚ) * 100 else 0

/-- Stable insertion keeping descending visitor counts: an element moves
past exactly those with a strictly larger count, so earlier elements stay
first on ties — the order Python's stable `sorted(..., reverse=True)`
produces. -/
def insertByCountDesc (x : String × Nat) : List (String × Nat) → List (String × Nat)
  | [] => [x]
  | y :: ys => if y.2 > x.2 then y :: insertByCountDesc x ys else x :: y :: ys

/-- `sorted_goals` (line 202): `goal_visitor_map.items()` sorted by
descending visitor count, stable on ties. -/
def sorted_goals (m : List (String × Nat)) : List (String × Nat) :=
  m.foldr insertByCountDesc []

/-- Section 4 rows (lines 204-206): `(percentage, count, goal)` in sorted
order. -/
def section4Rows (m : List (String × Nat)) (total : Nat) : List (ℚ × Nat × String) :=
  (sorted_goals m).map fun gc => (percentage gc.2 total, gc.2, gc.1)

/-- Section 5's accumulation (lines 223-229): one aggregate query per goal
with a goal+page filter, values summed. -/
def conversionVisitorsSum (goals : List String)
    (perGoalVisitors : String → Option Nat) : Nat :=
  goals.foldl (fun acc g => acc + aggValue (perGoalVisitors g)) 0

/-- `conversion_visitors` after line 231's cap by page-wide visitors. -/
def conversion_visitors (goals : List String) (perGoalVisitors : String → Option Nat)
    (homeVisitors : Nat) : Nat :=
  min (conversionVisitorsSum goals perGoalVisitors) homeVisitors

/-- `conversion_rate` (line 232):
`conv / home * 100 if home > 0 else 0.0`. -/
def conversion_rate (conv home : Nat) : ℚ :=
  if 0 < home then (conv : ℚ) / (home : ℚ) * 100 else 0

/-- Section 6 per-interval conversion rates (lines 266-287): per-interval
breakdown sum capped by the per-interval page-wide aggregate, then the
rate. -/
def section6Rates (g : Granularity) (s e : Date) (goals : List String)
    (respOf : Date → Date → List BreakdownItem)
    (homeOf : Date → Date → Nat) : Option (List ℚ) :=
  (intervalsSection6 g s e).map fun ivs =>
    ivs.map fun p =>
      conversion_rate (min (goalVisitorsSum (respOf p.1 p.2) goals) (homeOf p.1 p.2))
        (homeOf p.1 p.2)

theorem foldl_if_add_eq (p : BreakdownItem → Bool) (f : BreakdownItem → Nat) :
    ∀ (l : List BreakdownItem) (a : Nat),
      l.foldl (fun acc it => if p it then acc + f it else acc) a
        = a + ((l.filter p).map f).sum := by
  intro l
  induction l with
  | nil =>
    intro a
    simp
  | cons x xs ih =>
    intro a
    simp only [List.foldl_cons]
    by_cases hp : p x = true
    · rw [if_pos hp, ih]
      simp [List.filter_cons, hp]
      omega
    · rw [if_neg hp, ih]
      simp [List.filter_cons, hp]

theorem foldl_add_eq (f : String → Nat) :
    ∀ (l : List String) (a : Nat),
      l.foldl (fun acc g => acc + f g) a = a + (l.map f).sum := by
  intro l
  induction l with
  | nil =>
    intro a
    simp
  | cons x xs ih =>
    intro a
    simp only [List.foldl_cons]
    rw [ih]
    simp
    omega

theorem mem_insertByCountDesc (x z : String × Nat) :
    ∀ (l : List (String × Nat)), z ∈ insertByCountDesc x l → z = x ∨ z ∈ l := by
  intro l
  induction l with
  | nil =>
    intro h
    simp only [insertByCountDesc, List.mem_singleton] at h
    exact Or.inl h
  | cons y ys ih =>
    intro h
    unfold insertByCountDesc at h
    split_ifs at h with hc
    · rcases List.mem_cons.mp h with h1 | h2
      · exact Or.inr (h1 ▸ List.mem_cons_self y ys)
      · rcases ih h2 with ha | hb
        · exact Or.inl ha
        · exact Or.inr (List.mem_cons_of_mem y hb)
    · rcases List.mem_cons.mp h with h1 | h2
      · exact Or.inl h1
      · exact Or.inr h2

theorem pairwise_insertByCountDesc (x : String × Nat) :
    ∀ (l : List (String × Nat)), List.Pairwise (fun a b => b.2 ≤ a.2) l →
      List.Pairwise (fun a b => b.2 ≤ a.2) (insertByCountDesc x l) := by
  intro l
  induction l with
  | nil =>
    intro _
    simp [insertByCountDesc]
  | cons y ys ih =>
    intro hp
    rw [List.pairwise_cons] at hp
    obtain ⟨hy, hys⟩ := hp
    unfold insertByCountDesc
    split_ifs with hc
    · rw [List.pairwise_cons]
      refine ⟨?_, ih hys⟩
      intro z hz
      rcases mem_insertByCountDesc x z ys hz with h1 | h2
      · rw [h1]
        omega
      · exact hy z h2
    · rw [List.pairwise_cons]
      refine ⟨?_, ?_⟩
      · intro z hz
        rcases List.mem_cons.mp hz with h1 | h2
        · rw [h1]
          omega
        · have := hy z h2
          omega
      · rw [List.pairwise_cons]
        exact ⟨hy, hys⟩

theorem pairwise_sorted_goals (m : List (String × Nat)) :
    List.Pairwise (fun a b => b.2 ≤ a.2) (sorted_goals m) := by
  unfold sorted_goals
  induction m with
  | nil => simp
  | cons x xs ih =>
    simp only [List.foldr_cons]
    exact pairwise_insertByCountDesc x _ ih

def d20240602 : Date := ⟨⟨2024, 6, 2⟩, by decide⟩

def d20240608 : Date := ⟨⟨2024, 6, 8⟩, by decide⟩

def d20241101 : Date := ⟨⟨2024, 11, 1⟩, by decide⟩

def d20241115 : Date := ⟨⟨2024, 11, 15⟩, by decide⟩

def d20241230 : Date := ⟨⟨2024, 12, 30⟩, by decide⟩

def d20240131 : Date := ⟨⟨2024, 1, 31⟩, by decide⟩

def d20240229 : Date := ⟨⟨2024, 2, 29⟩, by decide⟩

def d20230131 : Date := ⟨⟨2023, 1, 31⟩, by decide⟩

def d20230228 : Date := ⟨⟨2023, 2, 28⟩, by decide⟩

def d20241215 : Date := ⟨⟨2024, 12, 15⟩, by decide⟩

def d20250115 : Date := ⟨⟨2025, 1, 15⟩, by decide⟩

/-- Claim C2: for every granularity and every start ≤ end that the
alignment validator accepts, the interval list built by the partitioning
loop is produced without error and is an ordered partition of
[start, end]: nonempty, first interval starts at start, last interval ends
at end, and each interval starts exactly one day after the previous one
ends (no gaps, no overlaps). -/
theorem claim_C2_partition (g : Granularity) (s e : Date)
    (hse : ord s ≤ ord e)
    (hok : validate_interval_alignment g s e = .ok) :
    ∃ l, intervalsSection3 g s e = some l ∧ IsPartition l s e := by
  cases g with
  | day =>
    exact ⟨dayIntervalsLoop e s, rfl,
      dayLoop_partition (ord e + 1 - ord s) e s (le_refl _) hse⟩
  | week =>
    obtain ⟨hs6, he5⟩ := validate_week_ok s e hok
    have hmod : ord e = ord s + 7 * ((ord e - ord s - 6) / 7) + 6 := by
      unfold weekday at hs6 he5
      omega
    exact ⟨weekIntervalsLoop e s, rfl,
      weekLoop_partition ((ord e - ord s - 6) / 7) e s hmod⟩
  | month =>
    have hml : monthValidateLoop e s = .ok := hok
    exact monthLoops_partition (ord e + 1 - ord s) e s (le_refl _) hse hml

/-- Witness for C2 at the concrete validated week range
2024-06-02 (Sunday) .. 2024-06-08 (Saturday). -/
theorem claim_C2_partition_witness :
    ∃ l, intervalsSection3 .week d20240602 d20240608 = some l ∧
      IsPartition l d20240602 d20240608 :=
  claim_C2_partition .week d20240602 d20240608 (by decide) (by decide)

/-- Claim C4 (code bug): `add_one_month` is not total.  For a November
date the target month is 12, so the day clamp computes
`date(year, 13, 1)`, which raises `ValueError`; here the model of the
code evaluates to `none` on 2024-11-15. -/
theorem claim_C4_november_valueerror : add_one_month d20241115 = none := by decide

/-- Claim C6 (code bug): the clamp-and-roll behaviour holds on the three
cited examples (2024-01-31 → 2024-02-29, 2023-01-31 → 2023-02-28,
2024-12-15 → 2025-01-15), but the general same-day-next-month description
fails for November inputs: on 2024-11-15 the code raises `ValueError`
instead of returning 2024-12-15. -/
theorem claim_C6_rollover :
    add_one_month d20240131 = some d20240229 ∧
    add_one_month d20230131 = some d20230228 ∧
    add_one_month d20241215 = some d20250115 ∧
    add_one_month d20241115 ≠ some d20241215 ∧
    add_one_month d20241115 = none := by decide

/-- Claim C5 (code bug): the day and week parts of the validator behave as
claimed, but for month granularity the loop applies `add_one_month` to the
range start before any alignment verdict, so on
(month, 2024-11-01, 2024-12-30) — not a whole-month range, which per the
claim must fail with `AlignmentError` — the code instead dies with the
November `ValueError`. -/
theorem claim_C5_validator :
    validate_interval_alignment .month d20241101 d20241230 = .valueError ∧
    (∀ s e : Date, validate_interval_alignment .day s e = .ok) ∧
    (∀ s e : Date,
      validate_interval_alignment .week s e = .alignmentError
        ↔ (weekday s ≠ 6 ∨ weekday e ≠ 5)) := by
  refine ⟨?_, fun s e => rfl, ?_⟩
  · show monthValidateLoop d20241230 d20241101 = .valueError
    exact monthValidateLoop_step_lt_none d20241230 d20241101 (by decide) (by decide)
  · intro s e
    unfold validate_interval_alignment
    by_cases hc : weekday s ≠ 6 ∨ weekday e ≠ 5
    · rw [if_pos hc]
      exact iff_of_true rfl hc
    · rw [if_neg hc]
      exact iff_of_false (fun h => ValidateOutcome.noConfusion h) hc

/-- Claim C10: the per-interval events/visitors section and the
per-interval conversion-rate section each rebuild the interval list with
duplicated code, and the two computations agree on every input. -/
theorem claim_C10_duplicate_intervals (g : Granularity) (s e : Date) :
    intervalsSection6 g s e = intervalsSection3 g s e := by
  cases g with
  | day =>
    show some (dayIntervalsLoop6 e s) = some (dayIntervalsLoop e s)
    rw [dayLoops_eq (ord e + 1 - ord s) e s (le_refl _)]
  | week =>
    show some (weekIntervalsLoop6 e s) = some (weekIntervalsLoop e s)
    rw [weekLoops_eq (ord e + 1 - ord s) e s (le_refl _)]
  | month =>
    exact monthLoops_eq (ord e + 1 - ord s) e s (le_refl _)

/-- Claim C1: wherever a visitor count is a sum of per-goal counts and a
broader non-breakdown aggregate over the same window/filter exists, the
reported count is `min(sum, ceiling)` and hence never exceeds the
ceiling: the whole-range goal total against the site aggregate (line 115),
the page-filtered conversion total against the page aggregate (line 231),
and the per-interval rows against their caps; a breakdown sum of 150 with
a site aggregate of 120 reconciles to 120. -/
theorem claim_C1_capping :
    (∀ (resp : List BreakdownItem) (goals : List String) (siteTotal : Nat),
      total_goal_visitors resp goals siteTotal
          = min (((resp.filter (itemMatches goals)).map fun it => it.visitors.getD 0).sum)
              siteTotal
        ∧ total_goal_visitors resp goals siteTotal ≤ siteTotal) ∧
    (∀ (goals : List String) (perGoal : String → Option Nat) (home : Nat),
      conversion_visitors goals perGoal home
          = min ((goals.map fun g => aggValue (perGoal g)).sum) home
        ∧ conversion_visitors goals perGoal home ≤ home) ∧
    (∀ (resp : List BreakdownItem) (goals : List String) (cap : Nat),
      (section3Row resp goals cap).2 ≤ cap) ∧
    total_goal_visitors [⟨some "signup", none, none, some 150, some 0⟩] ["signup"] 120
      = 120 := by
  refine ⟨?_, ?_, ?_, by decide⟩
  · intro resp goals siteTotal
    refine ⟨?_, Nat.min_le_right _ _⟩
    unfold total_goal_visitors goalVisitorsSum
    rw [foldl_if_add_eq]
    rw [Nat.zero_add]
  · intro goals perGoal home
    refine ⟨?_, Nat.min_le_right _ _⟩
    unfold conversion_visitors conversionVisitorsSum
    rw [foldl_add_eq]
    rw [Nat.zero_add]
  · intro resp goals cap
    exact Nat.min_le_right _ _

/-- Claim C3: every per-interval visitor figure of Section 3 is
`min(interval goal sum, whole-range reconciled total)`: the ceiling passed
to every row is the already-reconciled Section 1 grand total
`min(whole-range sum, site aggregate)` — not a freshly queried
per-interval site aggregate — and every row's visitor figure is bounded by
that reconciled total. -/
theorem claim_C3_interval_ceiling :
    (∀ (g : Granularity) (s e : Date) (goals : List String)
        (wholeResp : List BreakdownItem) (siteTotal : Nat)
        (respOf : Date → Date → List BreakdownItem),
      section3Figures g s e goals wholeResp siteTotal respOf
        = (intervalsSection3 g s e).map fun ivs =>
            ivs.map fun p =>
              (goalEventsSum (respOf p.1 p.2) goals,
               min (goalVisitorsSum (respOf p.1 p.2) goals)
                 (min (goalVisitorsSum wholeResp goals) siteTotal))) ∧
    (∀ (resp wholeResp : List BreakdownItem) (goals : List String) (siteTotal : Nat),
      (section3Row resp goals (total_goal_visitors wholeResp goals siteTotal)).2
        ≤ total_goal_visitors wholeResp goals siteTotal) := by
  constructor
  · intro g s e goals wholeResp siteTotal respOf
    rfl
  · intro resp wholeResp goals siteTotal
    exact Nat.min_le_right _ _

/-- Claim C7: a query response with no entry matching any requested goal
yields zero counts (visitor sum, event total, reconciled total) and no
error; a conversion rate with zero page-wide visitors and a percentage
with zero total are 0 rather than a division fault. -/
theorem claim_C7_zero_cases :
    (∀ (resp : List BreakdownItem) (goals : List String) (siteTotal : Nat),
      (∀ it ∈ resp, itemMatches goals it = false) →
        goalVisitorsSum resp goals = 0 ∧
        total_events resp goals = 0 ∧
        total_goal_visitors resp goals siteTotal = 0) ∧
    (∀ conv : Nat, conversion_rate conv 0 = 0) ∧
    (∀ count : Nat, percentage count 0 = 0) := by
  refine ⟨?_, ?_, ?_⟩
  · intro resp goals siteTotal h
    have hfil : resp.filter (itemMatches goals) = [] := by
      rw [List.filter_eq_nil_iff]
      intro a ha
      rw [h a ha]
      simp
    have hv : goalVisitorsSum resp goals = 0 := by
      unfold goalVisitorsSum
      rw [foldl_if_add_eq, hfil]
      simp
    refine ⟨hv, ?_, ?_⟩
    · unfold total_events
      rw [foldl_if_add_eq, hfil]
      simp
    · unfold total_goal_visitors
      rw [hv]
      exact Nat.zero_min _
  · intro conv
    unfold conversion_rate
    rw [if_neg (by omega)]
  · intro count
    unfold percentage
    rw [if_neg (by omega)]

/-- Witness for C7: an unmatched response entry and zero denominators at
concrete inputs. -/
theorem claim_C7_zero_cases_witness :
    (goalVisitorsSum [⟨some "other", none, none, some 5, some 7⟩] ["signup"] = 0 ∧
     total_events [⟨some "other", none, none, some 5, some 7⟩] ["signup"] = 0 ∧
     total_goal_visitors [⟨some "other", none, none, some 5, some 7⟩] ["signup"] 9 = 0) ∧
    conversion_rate 17 0 = 0 ∧
    percentage 23 0 = 0 :=
  ⟨claim_C7_zero_cases.1 [⟨some "other", none, none, some 5, some 7⟩] ["signup"] 9
      (by decide),
    claim_C7_zero_cases.2.1 17,
    claim_C7_zero_cases.2.2 23⟩

/-- Claim C8: event totals are plain sums over the requested goals with no
capping, both the whole-range total of Section 2 and the per-interval
events figure of Section 3; concretely an events sum of 200 is reported
unchanged even though the site aggregate 120 caps the corresponding
visitor total to 120. -/
theorem claim_C8_events_plain_sum :
    (∀ (resp : List BreakdownItem) (goals : List String),
      total_events resp goals
        = ((resp.filter (itemMatches goals)).map fun it => it.events.getD 0).sum) ∧
    (∀ (resp : List BreakdownItem) (goals : List String) (cap : Nat),
      (section3Row resp goals cap).1
        = ((resp.filter (itemMatches goals)).map fun it => it.events.getD 0).sum) ∧
    total_events [⟨some "signup", none, none, some 150, some 200⟩] ["signup"] = 200 ∧
    total_goal_visitors [⟨some "signup", none, none, some 150, some 200⟩] ["signup"] 120
      = 120 := by
  refine ⟨?_, ?_, by decide, by decide⟩
  · intro resp goals
    unfold total_events
    rw [foldl_if_add_eq]
    rw [Nat.zero_add]
  · intro resp goals cap
    show goalEventsSum resp goals = _
    unfold goalEventsSum
    rw [foldl_if_add_eq]
    rw [Nat.zero_add]

/-- Claim C9: the Section 4 breakdown lists goals by descending visitor
count — the sorted list is pairwise non-increasing, so goals with distinct
counts appear larger-first, and ties are left unconstrained — and the map
{A 30, B 50, C 20} with total 100 yields rows B 50.00%, A 30.00%,
C 20.00%. -/
theorem claim_C9_ordering :
    (∀ m : List (String × Nat),
      List.Pairwise (fun a b => b.2 ≤ a.2) (sorted_goals m)) ∧
    section4Rows [("A", 30), ("B", 50), ("C", 20)] 100
      = [((50 : ℚ), 50, "B"), ((30 : ℚ), 30, "A"), ((20 : ℚ), 20, "C")] := by
  refine ⟨pairwise_sorted_goals, ?_⟩
  show List.map _ (sorted_goals [("A", 30), ("B", 50), ("C", 20)]) = _
  have hs : sorted_goals [("A", 30), ("B", 50), ("C", 20)]
      = [("B", 50), ("A", 30), ("C", 20)] := by decide
  rw [hs]
  simp only [List.map_cons, List.map_nil]
  norm_num [percentage]
